import Mathlib

/-!
# Verification of the resource-discovery and deduplicated-download pipeline

Shallow embedding of the core scraping logic of `src/lib.rs` (crate
`ivoclar_offline`): the URL normalizer `normalize_url_path`, the fetch-URL
resolution inside `download_asset`, and `download_asset` itself, modelled with
explicit network and filesystem oracles and an explicit session state (the
`DownloadedUrls` dedup registry plus the files written so far).

Rust strings are modelled as `List Char`; Rust's `Option`/`Result` pattern
matches become matches on `Option`.
-/

/-- Rust `String`/`&str` values, modelled as lists of characters. -/
abbrev Str := List Char

/-- Convenience: a Lean string literal as a `Str`. -/
def str (s : String) : Str := s.toList

/-- Lines 167-168 of `src/lib.rs`:
`let url = url.split('?').next().unwrap_or(url);` followed by
`let url = url.split('#').next().unwrap_or(url);`.
`split(c).next()` always yields the portion before the first occurrence of
`c` (the whole string when `c` is absent), i.e. `takeWhile (· != c)`. -/
def stripQueryFrag (url : Str) : Str :=
  (url.takeWhile (fun c => c != '?')).takeWhile (fun c => c != '#')

/-- Rust `str::strip_prefix`: `some` of the remainder when the pattern is a
prefix of the string, `none` otherwise. -/
def stripPre (pat s : Str) : Option Str :=
  if pat.isPrefixOf s then some (s.drop pat.length) else none

/-- `normalize_url_path` from `src/lib.rs` lines 166-186, branch for branch:
strip query and fragment; reject empty / `data:` / `blob:`; absolute
`http(s)://` URLs must carry the exact `website` prefix, which is stripped
along with leading slashes; protocol-relative `//host/...` URLs keep
everything from the first `/` after the host, with leading slashes stripped
(`stripped.find('/')` maps to taking the suffix from the first `'/'` when one
exists); anything else just loses its leading slashes; finally an empty
result is rejected (`path.filter(|p| !p.is_empty())`). -/
def normalize_url_path (url website : Str) : Option Str :=
  let u := stripQueryFrag url
  if u.isEmpty || (str "data:").isPrefixOf u || (str "blob:").isPrefixOf u then
    none
  else
    let path : Option Str :=
      if (str "http://").isPrefixOf u || (str "https://").isPrefixOf u then
        (stripPre website u).map (fun p => p.dropWhile (fun c => c == '/'))
      else if (str "//").isPrefixOf u then
        let stripped := u.drop 2
        if stripped.contains '/' then
          some ((stripped.dropWhile (fun c => c != '/')).dropWhile (fun c => c == '/'))
        else
          none
      else
        some (u.dropWhile (fun c => c == '/'))
    path.filter (fun p => !p.isEmpty)

/-- The fetch-URL resolution inside `download_asset`, lines 207-214 of
`src/lib.rs`: `url.starts_with("http")` keeps the url as-is; a
`//`-prefixed url becomes `https://{stripped}`; anything else becomes
`{website}/{url.trim_start_matches('/')}`. -/
def full_url (url website : Str) : Str :=
  if (str "http").isPrefixOf url then url
  else if (str "//").isPrefixOf url then str "https://" ++ url.drop 2
  else website ++ str "/" ++ url.dropWhile (fun c => c == '/')

/-! ## The asset fetcher (`download_asset`, `src/lib.rs` lines 189-232)

The effectful parts of `download_asset` are modelled with explicit oracles:

* the network client: `reqwest`'s `client.get(full_url).send()` either fails
  at the connection level (`none`) or yields a `Response` carrying an HTTP
  status code and a body read (`response.bytes()`), which itself can fail
  (`body = none`).  The Rust code never inspects the status; the field is
  kept in the model because the claims talk about it.
* the filesystem: `fs::create_dir_all(parent)` and `fs::write(file_path, ..)`
  each succeed or fail per canonical path (for a path under `page/` the
  `file_path.parent()` is always `Some`, so that check never fails).
  A failed write leaves no file (writes are treated as atomic).

The session state is the `DownloadedUrls` registry (an
`Arc<Mutex<HashSet<String>>>`, modelled as the list of its members) together
with the files written so far.  The calls in `scrape_page` are sequential
(`for url in &urls { ... .await }`), so `download_asset` is modelled as one
state transition; the interleaving of its two separate `Mutex` critical
sections is modelled separately below for the concurrency claim.  The third
component of the result records the externally visible effects (network
fetches and file writes) the call performed. -/

/-- A `reqwest::Response`: an HTTP status plus the result of reading the
body (`response.bytes()`; `none` models a body-read failure). -/
structure Response where
  status : Nat
  body : Option (List Nat)
deriving DecidableEq

/-- The network oracle: what `client.get(u).send()` yields for each absolute
URL `u` (`none` models a connection-level failure). -/
abbrev Net := Str → Option Response

/-- The filesystem oracle: whether `fs::create_dir_all` on the parent of a
canonical path and `fs::write` to it succeed. -/
structure FsOracle where
  mkdirOK : Str → Bool
  writeOK : Str → Bool

/-- The session state: the dedup registry (`downloaded`) and the asset files
written so far (canonical path paired with the bytes written). -/
structure SessionState where
  downloaded : List Str
  files : List (Str × List Nat)
deriving DecidableEq

/-- The session state at session start: registry and disk both empty
(`HashSet::new()` in `Scraper::new`). -/
def initialSession : SessionState := ⟨[], []⟩

/-- An externally visible effect of one `download_asset` call. -/
inductive Event where
  | fetch (url : Str)
  | write (path : Str) (bytes : List Nat)
deriving DecidableEq

/-- `download_asset` from `src/lib.rs` lines 189-232: normalize (else return
false); return false if the path is already in the registry; build the full
URL; fetch; on connection or body-read failure return false; otherwise
create the directory and write the file, and only when both succeed insert
the path into the registry and return true. -/
def download_asset (net : Net) (fso : FsOracle) (url website : Str)
    (st : SessionState) : Bool × SessionState × List Event :=
  match normalize_url_path url website with
  | none => (false, st, [])
  | some local_path =>
    if local_path ∈ st.downloaded then
      (false, st, [])
    else
      match net (full_url url website) with
      | none => (false, st, [Event.fetch (full_url url website)])
      | some response =>
        match response.body with
        | none => (false, st, [Event.fetch (full_url url website)])
        | some bytes =>
          if fso.mkdirOK local_path && fso.writeOK local_path then
            (true,
              ⟨local_path :: st.downloaded, (local_path, bytes) :: st.files⟩,
              [Event.fetch (full_url url website), Event.write local_path bytes])
          else
            (false, st, [Event.fetch (full_url url website)])

/-! ## Interleaving model of the registry's two critical sections

`download_asset` touches the shared registry in two separate `Mutex`
critical sections: the membership check (lines 200-205) and, after the fetch
and the write, the insertion (lines 225-226).  For the concurrency claim the
progress of one call (for a fixed path, with fetch and write succeeding) is
modelled as a small state machine whose atomic steps are exactly those
critical sections, and two such calls are run under an arbitrary
interleaving. -/

/-- Control point of one in-flight `download_asset` call for a fixed path:
before the membership check, after a winning check (`claimed`), after the
fetch and file write (`written`), or returned (`finished`). -/
inductive TState where
  | start
  | claimed
  | written
  | finished (result : Bool)
deriving DecidableEq

/-- One atomic step of an in-flight call against the shared registry `reg`:
the membership-check critical section, the lock-free fetch-and-write, or the
insertion critical section. -/
def stepT (p : Str) (reg : List Str) : TState → TState × List Str
  | .start => if p ∈ reg then (.finished false, reg) else (.claimed, reg)
  | .claimed => (.written, reg)
  | .written => (.finished true, p :: reg)
  | .finished b => (.finished b, reg)

/-- Run two concurrent calls for the same path `p` under a schedule:
`true` steps the first thread, `false` the second. -/
def run2 (p : Str) : List Bool → TState × TState × List Str → TState × TState × List Str
  | [], c => c
  | b :: rest, (t1, t2, reg) =>
    if b then
      run2 p rest ((stepT p reg t1).1, t2, (stepT p reg t1).2)
    else
      run2 p rest (t1, (stepT p reg t2).1, (stepT p reg t2).2)

/-! ## Spec-side definitions (for claims judged against the spec's words) -/

/-- Modelled from the spec: an HTTP status is a success status iff it lies in
the 2xx range (the Rust code itself never inspects the status). -/
def isSuccessStatus (n : Nat) : Bool := decide (200 ≤ n) && decide (n < 300)

/-- A character allowed in a URL scheme (RFC 3986: letters, digits,
`+`, `-`, `.`). -/
def isSchemeChar (c : Char) : Bool := c.isAlphanum || c == '+' || c == '-' || c == '.'

/-- Modelled from the claim's words: a URL "starts with a scheme" iff it
begins with a letter, everything before the first `:` consists of scheme
characters, and a `:` is present. -/
def startsWithScheme (u : Str) : Bool :=
  match u with
  | [] => false
  | c :: rest =>
    c.isAlpha && ((c :: rest).takeWhile (fun d => d != ':')).all isSchemeChar &&
      (c :: rest).contains ':'

/-- Modelled from the claim's words (spec 4.4 step 3): use the url as-is when
it starts with a scheme, prefix `https:` when protocol-relative, otherwise
join with the site. -/
def resolve_claim (url website : Str) : Str :=
  if startsWithScheme url then url
  else if (str "//").isPrefixOf url then str "https:" ++ url
  else website ++ str "/" ++ url.dropWhile (fun c => c == '/')

/-- A well-formed relative path (the claim's `a/b`): non-empty, no query or
fragment characters, no leading slash, and not beginning like a URL
(`data:`, `blob:`, `http://`, `https://`). -/
def isRelPath (p : Str) : Bool :=
  !p.isEmpty && !p.contains '?' && !p.contains '#' &&
    !(str "/").isPrefixOf p && !(str "data:").isPrefixOf p &&
    !(str "blob:").isPrefixOf p && !(str "http://").isPrefixOf p &&
    !(str "https://").isPrefixOf p

/-- A well-formed site base URL: an `http://` or `https://` prefix and no
query or fragment characters. -/
def isHttpSite (s : Str) : Bool :=
  ((str "http://").isPrefixOf s || (str "https://").isPrefixOf s) &&
    !s.contains '?' && !s.contains '#'

/-- The session-long registry invariant (spec section 3): a canonical path is
in the dedup registry iff an asset file has been successfully written at it
during this session. -/
def RegistryInv (st : SessionState) : Prop :=
  ∀ p : Str, p ∈ st.downloaded ↔ p ∈ st.files.map Prod.fst

/-! ## Concrete oracles used by witnesses and counterexamples -/

/-- A network oracle whose every request fails at the connection level. -/
def netRefuse : Net := fun _ => none

/-- A network oracle answering every request with HTTP 404 and a small body
(reqwest's `send()` succeeds on non-success statuses). -/
def netRespond404 : Net := fun _ => some ⟨404, some [60, 104, 62]⟩

/-- A network oracle answering HTTP 200 but whose body read fails. -/
def netBodyFail : Net := fun _ => some ⟨200, none⟩

/-- A network oracle answering HTTP 200 with a small body. -/
def netOk : Net := fun _ => some ⟨200, some [1, 2, 3]⟩

/-- A filesystem oracle on which directory creation and writes always
succeed. -/
def fsoAll : FsOracle := ⟨fun _ => true, fun _ => true⟩

/-! ## Generic list toolkit -/

theorem takeWhile_eq_self_of_all {p : Char → Bool} {l : Str}
    (h : ∀ c ∈ l, p c = true) : l.takeWhile p = l :=
  List.takeWhile_eq_self_iff.mpr h

theorem mem_of_mem_takeWhile {p : Char → Bool} {l : Str} {c : Char}
    (h : c ∈ l.takeWhile p) : c ∈ l :=
  (List.takeWhile_sublist p).subset h

theorem mem_of_mem_dropWhile {p : Char → Bool} {l : Str} {c : Char}
    (h : c ∈ l.dropWhile p) : c ∈ l :=
  (List.dropWhile_sublist p).subset h

theorem head_false_of_dropWhile {p : Char → Bool} {l : Str} {c : Char} {t : Str}
    (h : l.dropWhile p = c :: t) : p c = false := by
  have h0 := List.head?_dropWhile_not p l
  rw [h] at h0
  simpa using h0

theorem dropWhile_cons_of_neg {p : Char → Bool} {c : Char} (t : Str)
    (h : p c = false) : (c :: t).dropWhile p = c :: t := by
  simp [List.dropWhile_cons, h]

theorem stripPre_append (s t : Str) : stripPre s (s ++ t) = some t := by
  have hp : s.isPrefixOf (s ++ t) = true := by
    simp [ List.isPrefixOf_iff_prefix]
  simp [stripPre, hp, List.drop_left]

theorem isPrefixOf_append_right {a s : Str} (t : Str)
    (h : a.isPrefixOf s = true) : a.isPrefixOf (s ++ t) = true := by
  rw [ List.isPrefixOf_iff_prefix] at h ⊢
  exact h.trans (List.prefix_append s t)

theorem isPrefixOf_false_of_head_ne {a b : Char} {l₁ l₂ : Str} (h : a ≠ b) :
    (a :: l₁).isPrefixOf (b :: l₂) = false := by
  rw [Bool.eq_false_iff]
  intro hc
  rw [ List.isPrefixOf_iff_prefix, List.cons_prefix_cons] at hc
  exact h hc.1

theorem eq_cons_of_isPrefixOf_cons {a : Char} {l₁ l₂ : Str}
    (h : (a :: l₁).isPrefixOf l₂ = true) : ∃ t, l₂ = a :: t := by
  cases l₂ with
  | nil => simp at h
  | cons b t =>
    rw [ List.isPrefixOf_iff_prefix, List.cons_prefix_cons] at h
    exact ⟨t, by rw [h.1]⟩

theorem mem_stripQueryFrag {u : Str} {c : Char} (h : c ∈ stripQueryFrag u) :
    c ∈ u ∧ c ≠ '?' ∧ c ≠ '#' := by
  have h1 : c ∈ u.takeWhile (fun c => c != '?') := mem_of_mem_takeWhile h
  have hq := List.mem_takeWhile_imp h1
  have hh := List.mem_takeWhile_imp h
  simp only [bne_iff_ne, ne_eq, decide_eq_true_eq] at hq hh
  exact ⟨mem_of_mem_takeWhile h1, hq, hh⟩

theorem stripQueryFrag_eq_self {u : Str} (hq : '?' ∉ u) (hh : '#' ∉ u) :
    stripQueryFrag u = u := by
  unfold stripQueryFrag
  rw [takeWhile_eq_self_of_all, takeWhile_eq_self_of_all]
  · intro c hc
    simp only [bne_iff_ne, ne_eq, decide_eq_true_eq]
    exact fun hc' => hq (hc' ▸ hc)
  · intro c hc
    rw [takeWhile_eq_self_of_all] at hc
    · simp only [bne_iff_ne, ne_eq, decide_eq_true_eq]
      exact fun hc' => hh (hc' ▸ hc)
    · intro c hc
      simp only [bne_iff_ne, ne_eq, decide_eq_true_eq]
      exact fun hc' => hq (hc' ▸ hc)

/-! ## Structural lemmas about `normalize_url_path` -/

theorem mem_of_mem_drop {l : Str} {n : Nat} {c : Char} (h : c ∈ l.drop n) : c ∈ l :=
  (List.drop_sublist n l).subset h

theorem normalize_some_shape {u s p : Str} (h : normalize_url_path u s = some p) :
    p.isEmpty = false ∧ (∀ c, c ∈ p → c ∈ stripQueryFrag u) ∧
      ∀ c t, p = c :: t → c ≠ '/' := by
  unfold normalize_url_path at h
  simp only [] at h
  split at h
  · exact absurd h (by simp)
  · split at h
    · cases ho : stripPre s (stripQueryFrag u) with
      | none => rw [ho] at h; simp [Option.filter] at h
      | some q =>
        rw [ho] at h
        simp only [Option.map_some', Option.filter] at h
        split at h
        · have hpq : q.dropWhile (fun c => c == '/') = p := Option.some.inj h
          have hq : q = (stripQueryFrag u).drop s.length := by
            unfold stripPre at ho
            split at ho
            · exact (Option.some.inj ho).symm
            · exact absurd ho (by simp)
          refine ⟨?_, ?_, ?_⟩
          · rename_i hne
            subst hpq
            simpa using hne
          · intro c hc
            rw [← hpq] at hc
            exact mem_of_mem_drop (hq ▸ mem_of_mem_dropWhile hc)
          · intro c t hct
            have hc := head_false_of_dropWhile (hpq.trans hct)
            simpa using hc
        · exact absurd h (by simp)
    · split at h
      · split at h
        · simp only [Option.filter] at h
          split at h
          · have hpq : (((stripQueryFrag u).drop 2).dropWhile
                (fun c => c != '/')).dropWhile (fun c => c == '/') = p :=
              Option.some.inj h
            refine ⟨?_, ?_, ?_⟩
            · rename_i hne
              subst hpq
              simpa using hne
            · intro c hc
              rw [← hpq] at hc
              exact mem_of_mem_drop (mem_of_mem_dropWhile (mem_of_mem_dropWhile hc))
            · intro c t hct
              have hc := head_false_of_dropWhile (hpq.trans hct)
              simpa using hc
          · exact absurd h (by simp)
        · exact absurd h (by simp)
      · simp only [Option.filter] at h
        split at h
        · have hpq : (stripQueryFrag u).dropWhile (fun c => c == '/') = p :=
            Option.some.inj h
          refine ⟨?_, ?_, ?_⟩
          · rename_i hne
            subst hpq
            simpa using hne
          · intro c hc
            rw [← hpq] at hc
            exact mem_of_mem_dropWhile hc
          · intro c t hct
            have hc := head_false_of_dropWhile (hpq.trans hct)
            simpa using hc
        · exact absurd h (by simp)

theorem normalize_some_props {u s p : Str} (h : normalize_url_path u s = some p) :
    p.isEmpty = false ∧ (str "/").isPrefixOf p = false ∧
      p.contains '?' = false ∧ p.contains '#' = false := by
  obtain ⟨h1, h2, h3⟩ := normalize_some_shape h
  refine ⟨h1, ?_, ?_, ?_⟩
  · cases p with
    | nil => simp at h1
    | cons c t =>
      have hc : c ≠ '/' := h3 c t rfl
      have hs : str "/" = ['/'] := rfl
      rw [hs]
      exact isPrefixOf_false_of_head_ne (fun he => hc he.symm)
  · rw [Bool.eq_false_iff]
    intro hcc
    have hm : '?' ∈ p := by simpa using hcc
    exact (mem_stripQueryFrag (h2 _ hm)).2.1 rfl
  · rw [Bool.eq_false_iff]
    intro hcc
    have hm : '#' ∈ p := by simpa using hcc
    exact (mem_stripQueryFrag (h2 _ hm)).2.2 rfl

/-! ## Lemmas for the normalizer claims -/

theorem not_mem_cons_of {a c : Char} {t : Str} (h1 : a ≠ c) (h2 : a ∉ t) : a ∉ c :: t := by
  intro hm
  rcases List.mem_cons.mp hm with h | h
  · exact h1 h
  · exact h2 h

theorem not_mem_append_of {a : Char} {l₁ l₂ : Str} (h1 : a ∉ l₁) (h2 : a ∉ l₂) :
    a ∉ l₁ ++ l₂ := by
  intro hm
  rcases List.mem_append.mp hm with h | h
  · exact h1 h
  · exact h2 h

theorem slash_isPrefixOf_cons_self (t : Str) : (str "/").isPrefixOf ('/' :: t) = true := by
  have hsr : str "/" = ['/'] := rfl
  rw [hsr, List.isPrefixOf_iff_prefix, List.cons_prefix_cons]
  exact ⟨rfl, List.nil_prefix⟩

theorem head_ne_slash_of_not_slash_pre {c : Char} {t : Str}
    (hsl : (str "/").isPrefixOf (c :: t) = false) : c ≠ '/' := by
  intro he
  subst he
  rw [slash_isPrefixOf_cons_self] at hsl
  simp at hsl

theorem proto_isPrefixOf_false {c : Char} {t : Str} (hc : c ≠ '/') :
    (str "//").isPrefixOf (c :: t) = false := by
  have hsr : str "//" = '/' :: ['/'] := rfl
  rw [hsr]
  exact isPrefixOf_false_of_head_ne (fun he => hc he.symm)

/-- `normalize_url_path` on a plain relative path (no query, no fragment, no
leading slash, no URL-like beginning) is the identity. -/
theorem normalize_plain {p : Str} (s : Str)
    (hne : p.isEmpty = false) (hq : '?' ∉ p) (hh : '#' ∉ p)
    (hd : (str "data:").isPrefixOf p = false) (hb : (str "blob:").isPrefixOf p = false)
    (h3 : (str "http://").isPrefixOf p = false) (h4 : (str "https://").isPrefixOf p = false)
    (hsl : (str "/").isPrefixOf p = false) :
    normalize_url_path p s = some p := by
  have hsqf : stripQueryFrag p = p := stripQueryFrag_eq_self hq hh
  cases p with
  | nil => simp at hne
  | cons c t =>
    have hc : c ≠ '/' := head_ne_slash_of_not_slash_pre hsl
    have hproto : (str "//").isPrefixOf (c :: t) = false := proto_isPrefixOf_false hc
    have hdw : (c :: t).dropWhile (fun d => d == '/') = c :: t :=
      dropWhile_cons_of_neg t (by simp [hc])
    unfold normalize_url_path
    simp only []
    rw [hsqf]
    simp [hne, hd, hb, h3, h4, hproto, hdw, Option.filter]

/-- `normalize_url_path` on a root-relative `/` ++ path. -/
theorem normalize_root_rel {p : Str} (s : Str)
    (hne : p.isEmpty = false) (hq : '?' ∉ p) (hh : '#' ∉ p)
    (hsl : (str "/").isPrefixOf p = false) :
    normalize_url_path ('/' :: p) s = some p := by
  have hq1 : '?' ∉ '/' :: p := not_mem_cons_of (by decide) hq
  have hh1 : '#' ∉ '/' :: p := not_mem_cons_of (by decide) hh
  have hsqf : stripQueryFrag ('/' :: p) = '/' :: p := stripQueryFrag_eq_self hq1 hh1
  cases p with
  | nil => simp at hne
  | cons c t =>
    have hc : c ≠ '/' := head_ne_slash_of_not_slash_pre hsl
    have hd : (str "data:").isPrefixOf ('/' :: c :: t) = false := by
      have hr : str "data:" = 'd' :: str "ata:" := rfl
      rw [hr]; exact isPrefixOf_false_of_head_ne (by decide)
    have hb : (str "blob:").isPrefixOf ('/' :: c :: t) = false := by
      have hr : str "blob:" = 'b' :: str "lob:" := rfl
      rw [hr]; exact isPrefixOf_false_of_head_ne (by decide)
    have h3 : (str "http://").isPrefixOf ('/' :: c :: t) = false := by
      have hr : str "http://" = 'h' :: str "ttp://" := rfl
      rw [hr]; exact isPrefixOf_false_of_head_ne (by decide)
    have h4 : (str "https://").isPrefixOf ('/' :: c :: t) = false := by
      have hr : str "https://" = 'h' :: str "ttps://" := rfl
      rw [hr]; exact isPrefixOf_false_of_head_ne (by decide)
    have hproto : (str "//").isPrefixOf ('/' :: c :: t) = false := by
      rw [Bool.eq_false_iff]
      intro hcc
      have hr : str "//" = '/' :: ['/'] := rfl
      rw [hr, List.isPrefixOf_iff_prefix, List.cons_prefix_cons] at hcc
      obtain ⟨-, hcc⟩ := hcc
      have hT : (str "/").isPrefixOf (c :: t) = true := by
        have hr2 : str "/" = ['/'] := rfl
        rw [hr2, List.isPrefixOf_iff_prefix]
        exact hcc
      rw [hT] at hsl
      simp at hsl
    have hdw : ('/' :: c :: t).dropWhile (fun d => d == '/') = c :: t := by
      rw [List.dropWhile_cons]
      simp only [show (('/' : Char) == '/') = true from rfl, if_true]
      exact dropWhile_cons_of_neg t (by simp [hc])
    unfold normalize_url_path
    simp only []
    rw [hsqf]
    simp [hd, hb, h3, h4, hproto, hdw, Option.filter]

/-- `normalize_url_path` on `site ++ "/" ++ path` for a matching site. -/
theorem normalize_abs {p : Str} (s : Str)
    (hpre : ((str "http://").isPrefixOf s || (str "https://").isPrefixOf s) = true)
    (hsq : '?' ∉ s) (hsh : '#' ∉ s)
    (hne : p.isEmpty = false) (hq : '?' ∉ p) (hh : '#' ∉ p)
    (hsl : (str "/").isPrefixOf p = false) :
    normalize_url_path (s ++ '/' :: p) s = some p := by
  have hs_head : ∃ s₀, s = 'h' :: s₀ := by
    rw [Bool.or_eq_true] at hpre
    rcases hpre with h | h
    · rw [show str "http://" = 'h' :: str "ttp://" from rfl] at h
      exact eq_cons_of_isPrefixOf_cons h
    · rw [show str "https://" = 'h' :: str "ttps://" from rfl] at h
      exact eq_cons_of_isPrefixOf_cons h
  obtain ⟨s₀, rfl⟩ := hs_head
  have hq1 : '?' ∉ ('h' :: s₀) ++ '/' :: p :=
    not_mem_append_of hsq (not_mem_cons_of (by decide) hq)
  have hh1 : '#' ∉ ('h' :: s₀) ++ '/' :: p :=
    not_mem_append_of hsh (not_mem_cons_of (by decide) hh)
  have hsqf : stripQueryFrag (('h' :: s₀) ++ '/' :: p) = ('h' :: s₀) ++ '/' :: p :=
    stripQueryFrag_eq_self hq1 hh1
  cases p with
  | nil => simp at hne
  | cons c t =>
    have hc : c ≠ '/' := head_ne_slash_of_not_slash_pre hsl
    have hd : (str "data:").isPrefixOf ('h' :: (s₀ ++ '/' :: c :: t)) = false := by
      rw [show str "data:" = 'd' :: str "ata:" from rfl]
      exact isPrefixOf_false_of_head_ne (by decide)
    have hb : (str "blob:").isPrefixOf ('h' :: (s₀ ++ '/' :: c :: t)) = false := by
      rw [show str "blob:" = 'b' :: str "lob:" from rfl]
      exact isPrefixOf_false_of_head_ne (by decide)
    have hcond : ((str "http://").isPrefixOf ('h' :: (s₀ ++ '/' :: c :: t)) ||
        (str "https://").isPrefixOf ('h' :: (s₀ ++ '/' :: c :: t))) = true := by
      rw [Bool.or_eq_true] at hpre ⊢
      rcases hpre with h | h
      · exact Or.inl (isPrefixOf_append_right ('/' :: c :: t) h)
      · exact Or.inr (isPrefixOf_append_right ('/' :: c :: t) h)
    have hsp : stripPre ('h' :: s₀) ('h' :: (s₀ ++ '/' :: c :: t)) = some ('/' :: c :: t) :=
      stripPre_append ('h' :: s₀) ('/' :: c :: t)
    have hdw : ('/' :: c :: t).dropWhile (fun d => d == '/') = c :: t := by
      rw [List.dropWhile_cons]
      simp only [show (('/' : Char) == '/') = true from rfl, if_true]
      exact dropWhile_cons_of_neg t (by simp [hc])
    unfold normalize_url_path
    simp only []
    rw [hsqf]
    simp [hd, hb, hcond, hsp, hdw, Option.filter]

/-- C6: for a well-formed http(s) site and a well-formed relative path `p`,
the root-relative form `/p`, the absolute form `site/p` and the relative
form `p` all normalize to the same canonical path `some p`. -/
theorem c6_three_forms_agree (s p : Str) (hs : isHttpSite s = true) (hp : isRelPath p = true) :
    normalize_url_path ('/' :: p) s = some p ∧
    normalize_url_path (s ++ '/' :: p) s = some p ∧
    normalize_url_path p s = some p := by
  simp only [isRelPath, isHttpSite, Bool.and_eq_true, Bool.not_eq_true'] at hp hs
  obtain ⟨⟨⟨⟨⟨⟨⟨hne, hq⟩, hh⟩, hsl⟩, hd⟩, hb⟩, h3⟩, h4⟩ := hp
  obtain ⟨⟨hpre, hsq⟩, hsh⟩ := hs
  have hq' : '?' ∉ p := by simpa using hq
  have hh' : '#' ∉ p := by simpa using hh
  have hsq' : '?' ∉ s := by simpa using hsq
  have hsh' : '#' ∉ s := by simpa using hsh
  exact ⟨normalize_root_rel s hne hq' hh' hsl,
    normalize_abs s hpre hsq' hsh' hne hq' hh' hsl,
    normalize_plain s hne hq' hh' hd hb h3 h4 hsl⟩

theorem c6_witness :
    normalize_url_path ('/' :: str "a/b") (str "https://www.ivoclar.com") = some (str "a/b") ∧
    normalize_url_path (str "https://www.ivoclar.com" ++ '/' :: str "a/b")
      (str "https://www.ivoclar.com") = some (str "a/b") ∧
    normalize_url_path (str "a/b") (str "https://www.ivoclar.com") = some (str "a/b") :=
  c6_three_forms_agree (str "https://www.ivoclar.com") (str "a/b") (by decide) (by decide)

/-- `normalize_url_path` on a protocol-relative URL: the result depends only
on the stripped URL, not on the site. -/
theorem normalize_proto (u s rest : Str) (h : stripQueryFrag u = '/' :: '/' :: rest) :
    normalize_url_path u s =
      (if rest.contains '/' then
          some ((rest.dropWhile (fun c => c != '/')).dropWhile (fun c => c == '/'))
        else none).filter (fun q => !q.isEmpty) := by
  have hd : (str "data:").isPrefixOf ('/' :: '/' :: rest) = false := by
    rw [show str "data:" = 'd' :: str "ata:" from rfl]
    exact isPrefixOf_false_of_head_ne (by decide)
  have hb : (str "blob:").isPrefixOf ('/' :: '/' :: rest) = false := by
    rw [show str "blob:" = 'b' :: str "lob:" from rfl]
    exact isPrefixOf_false_of_head_ne (by decide)
  have h3 : (str "http://").isPrefixOf ('/' :: '/' :: rest) = false := by
    rw [show str "http://" = 'h' :: str "ttp://" from rfl]
    exact isPrefixOf_false_of_head_ne (by decide)
  have h4 : (str "https://").isPrefixOf ('/' :: '/' :: rest) = false := by
    rw [show str "https://" = 'h' :: str "ttps://" from rfl]
    exact isPrefixOf_false_of_head_ne (by decide)
  have hpp : (str "//").isPrefixOf ('/' :: '/' :: rest) = true := by
    rw [show str "//" = '/' :: ['/'] from rfl, List.isPrefixOf_iff_prefix,
      List.cons_prefix_cons]
    exact ⟨rfl, List.cons_prefix_cons.mpr ⟨rfl, List.nil_prefix⟩⟩
  unfold normalize_url_path
  simp only []
  rw [h]
  simp [hd, hb, h3, h4, hpp]

/-- C8: a protocol-relative URL is normalized independently of the site —
the result is the portion starting at the first `/` after the host (after
query/fragment stripping), with leading slashes removed; in particular
`//fonts.example.com/css?x` normalizes to `css` for every site. -/
theorem c8_proto_relative :
    (∀ u s s' rest, stripQueryFrag u = '/' :: '/' :: rest →
      normalize_url_path u s = normalize_url_path u s') ∧
    (∀ u s rest q, stripQueryFrag u = '/' :: '/' :: rest →
      rest.contains '/' = true →
      (rest.dropWhile (fun c => c != '/')).dropWhile (fun c => c == '/') = q →
      q.isEmpty = false →
      normalize_url_path u s = some q) ∧
    (∀ s, normalize_url_path (str "//fonts.example.com/css?x") s = some (str "css")) := by
  refine ⟨?_, ?_, ?_⟩
  · intro u s s' rest h
    rw [normalize_proto u s rest h, normalize_proto u s' rest h]
  · intro u s rest q h hcon hdrop hne
    rw [normalize_proto u s rest h, hcon]
    simp only [if_true, hdrop, Option.filter, hne]
    simp [hne]
  · intro s
    rw [normalize_proto (str "//fonts.example.com/css?x") s (str "fonts.example.com/css")
      (by decide)]
    decide

theorem c8_witness :
    normalize_url_path (str "//h.com/x/y") (str "https://a.com") =
      normalize_url_path (str "//h.com/x/y") (str "https://b.org") ∧
    normalize_url_path (str "//h.com/x/y") (str "https://a.com") = some (str "x/y") ∧
    normalize_url_path (str "//fonts.example.com/css?x") (str "https://a.com") =
      some (str "css") :=
  ⟨c8_proto_relative.1 (str "//h.com/x/y") (str "https://a.com") (str "https://b.org")
      (str "h.com/x/y") (by decide),
    c8_proto_relative.2.1 (str "//h.com/x/y") (str "https://a.com") (str "h.com/x/y")
      (str "x/y") (by decide) (by decide) (by decide) (by decide),
    c8_proto_relative.2.2 (str "https://a.com")⟩

theorem normalize_none_of_guard {u s : Str}
    (h : ((stripQueryFrag u).isEmpty || (str "data:").isPrefixOf (stripQueryFrag u) ||
      (str "blob:").isPrefixOf (stripQueryFrag u)) = true) :
    normalize_url_path u s = none := by
  unfold normalize_url_path
  simp only []
  rw [if_pos h]

theorem normalize_none_of_offsite {u s : Str}
    (habs : ((str "http://").isPrefixOf (stripQueryFrag u) ||
      (str "https://").isPrefixOf (stripQueryFrag u)) = true)
    (hs : s.isPrefixOf (stripQueryFrag u) = false) :
    normalize_url_path u s = none := by
  have ho : stripPre s (stripQueryFrag u) = none := by simp [stripPre, hs]
  unfold normalize_url_path
  simp only []
  simp [habs, ho, Option.filter]

/-- C7: `normalize_url_path` returns `none` when the query/fragment-stripped
URL is empty, starts with `data:` or `blob:`, or is an absolute `http(s)://`
URL whose prefix differs from the site; and every `some p` it returns is
non-empty, has no leading slash, and contains no `?` or `#`. -/
theorem c7_normalize_rejects_and_shape (u s : Str) :
    ((stripQueryFrag u).isEmpty = true → normalize_url_path u s = none) ∧
    ((str "data:").isPrefixOf (stripQueryFrag u) = true → normalize_url_path u s = none) ∧
    ((str "blob:").isPrefixOf (stripQueryFrag u) = true → normalize_url_path u s = none) ∧
    (((str "http://").isPrefixOf (stripQueryFrag u) = true ∨
        (str "https://").isPrefixOf (stripQueryFrag u) = true) →
      s.isPrefixOf (stripQueryFrag u) = false → normalize_url_path u s = none) ∧
    (∀ p, normalize_url_path u s = some p →
      p.isEmpty = false ∧ (str "/").isPrefixOf p = false ∧
        p.contains '?' = false ∧ p.contains '#' = false) := by
  refine ⟨?_, ?_, ?_, ?_, ?_⟩
  · intro h; exact normalize_none_of_guard (by simp [h])
  · intro h; exact normalize_none_of_guard (by simp [h])
  · intro h; exact normalize_none_of_guard (by simp [h])
  · intro h hs
    refine normalize_none_of_offsite ?_ hs
    rcases h with h | h <;> simp [h]
  · intro p h; exact normalize_some_props h

/-- C7 witness: the rejection cases and the shape of a returned path at
concrete inputs. -/
theorem c7_witness :
    normalize_url_path (str "data:image/png;base64,ABC") (str "https://www.ivoclar.com") = none ∧
    normalize_url_path (str "https://cdn.example.com/lib.js") (str "https://www.ivoclar.com") = none ∧
    ((str "x/y").isEmpty = false ∧ (str "/").isPrefixOf (str "x/y") = false ∧
      (str "x/y").contains '?' = false ∧ (str "x/y").contains '#' = false) :=
  ⟨(c7_normalize_rejects_and_shape (str "data:image/png;base64,ABC")
      (str "https://www.ivoclar.com")).2.1 (by decide),
   (c7_normalize_rejects_and_shape (str "https://cdn.example.com/lib.js")
      (str "https://www.ivoclar.com")).2.2.2.1 (Or.inr (by decide)) (by decide),
   (c7_normalize_rejects_and_shape (str "/x/y?a=1#f")
      (str "https://www.ivoclar.com")).2.2.2.2 (str "x/y") (by decide)⟩

/-- C9 counterexample: normalization is not idempotent on all of its own
outputs.  The root-relative URL `/data:x` normalizes to the path `data:x`,
but normalizing that path again hits the `data:` rejection and yields
`none`, not `some "data:x"`. -/
theorem c9_cex_idempotence_fails :
    normalize_url_path (str "/data:x") (str "https://www.ivoclar.com") = some (str "data:x") ∧
    normalize_url_path (str "data:x") (str "https://www.ivoclar.com") = none := by decide

/-- C9 (amended): normalization is idempotent on every output that does not
itself begin with `data:`, `blob:`, `http://` or `https://`. -/
theorem c9_amended_idempotent (u s p : Str) (h : normalize_url_path u s = some p)
    (h1 : (str "data:").isPrefixOf p = false) (h2 : (str "blob:").isPrefixOf p = false)
    (h3 : (str "http://").isPrefixOf p = false) (h4 : (str "https://").isPrefixOf p = false) :
    normalize_url_path p s = some p := by
  obtain ⟨hne, hsl, hq, hh⟩ := normalize_some_props h
  exact normalize_plain s hne (by simpa using hq) (by simpa using hh) h1 h2 h3 h4 hsl

/-- C9 witness: idempotence at a concrete normalized output. -/
theorem c9_witness :
    normalize_url_path (str "a/b") (str "https://www.ivoclar.com") = some (str "a/b") :=
  c9_amended_idempotent (str "/a/b?q=1") (str "https://www.ivoclar.com") (str "a/b")
    (by decide) (by decide) (by decide) (by decide) (by decide)

/-- C10 counterexample: the fetch URL is chosen by the literal test
`url.starts_with("http")`, not by "starts with a scheme".  The URL
`ftp://cdn.example.com/f.woff` starts with a scheme, yet `full_url` does not
use it as-is: it joins it onto the site. -/
theorem c10_cex_scheme_not_used_as_is :
    startsWithScheme (str "ftp://cdn.example.com/f.woff") = true ∧
    full_url (str "ftp://cdn.example.com/f.woff") (str "https://www.ivoclar.com") =
      str "https://www.ivoclar.com/ftp://cdn.example.com/f.woff" ∧
    full_url (str "ftp://cdn.example.com/f.woff") (str "https://www.ivoclar.com") ≠
      resolve_claim (str "ftp://cdn.example.com/f.woff") (str "https://www.ivoclar.com") := by
  decide

/-- C10 (amended): the fetch URL is the url itself when it starts with the
literal prefix `http`; `https:` ++ url when it starts with `//`; otherwise
the site joined with the url minus leading slashes. -/
theorem c10_amended_full_url (u s : Str) :
    ((str "http").isPrefixOf u = true → full_url u s = u) ∧
    ((str "http").isPrefixOf u = false → (str "//").isPrefixOf u = true →
      full_url u s = str "https:" ++ u) ∧
    ((str "http").isPrefixOf u = false → (str "//").isPrefixOf u = false →
      full_url u s = s ++ str "/" ++ u.dropWhile (fun c => c == '/')) := by
  refine ⟨?_, ?_, ?_⟩
  · intro h
    unfold full_url
    rw [if_pos h]
  · intro h1 h2
    obtain ⟨t, rfl⟩ : ∃ t, str "//" ++ t = u :=
      List.isPrefixOf_iff_prefix.mp h2
    unfold full_url
    rw [if_neg (by simp [h1]), if_pos h2]
    rfl
  · intro h1 h2
    unfold full_url
    rw [if_neg (by simp [h1]), if_neg (by simp [h2])]

theorem c10_witness :
    full_url (str "https://www.ivoclar.com/a.js") (str "https://www.ivoclar.com") =
      str "https://www.ivoclar.com/a.js" ∧
    full_url (str "//fonts.gstatic.com/f.woff2") (str "https://www.ivoclar.com") =
      str "https:" ++ str "//fonts.gstatic.com/f.woff2" ∧
    full_url (str "/assets/app.css") (str "https://www.ivoclar.com") =
      str "https://www.ivoclar.com" ++ str "/" ++
        (str "/assets/app.css").dropWhile (fun c => c == '/') :=
  ⟨(c10_amended_full_url (str "https://www.ivoclar.com/a.js")
      (str "https://www.ivoclar.com")).1 (by decide),
   (c10_amended_full_url (str "//fonts.gstatic.com/f.woff2")
      (str "https://www.ivoclar.com")).2.1 (by decide) (by decide),
   (c10_amended_full_url (str "/assets/app.css")
      (str "https://www.ivoclar.com")).2.2 (by decide) (by decide)⟩

/-! ## Lemmas about `download_asset` -/

theorem download_asset_mem (net : Net) (fso : FsOracle) {url website p : Str}
    {st : SessionState} (hn : normalize_url_path url website = some p)
    (hmem : p ∈ st.downloaded) :
    download_asset net fso url website st = (false, st, []) := by
  unfold download_asset
  rw [hn]
  simp [hmem]

theorem download_asset_false_state (net : Net) (fso : FsOracle) {url website : Str}
    {st : SessionState} (h : (download_asset net fso url website st).1 = false) :
    (download_asset net fso url website st).2.1 = st := by
  unfold download_asset at h ⊢
  cases hn : normalize_url_path url website with
  | none => simp [hn]
  | some p =>
    by_cases hm : p ∈ st.downloaded
    · simp [hn, hm]
    · cases hnet : net (full_url url website) with
      | none => simp [hn, hm, hnet]
      | some r =>
        cases hb : r.body with
        | none => simp [hn, hm, hnet, hb]
        | some bytes =>
          by_cases hf : (fso.mkdirOK p && fso.writeOK p) = true
          · simp [hn, hm, hnet, hb, hf] at h
          · simp [hn, hm, hnet, hb, hf]

theorem download_asset_true_downloaded (net : Net) (fso : FsOracle) {url website p : Str}
    {st : SessionState} (hn : normalize_url_path url website = some p)
    (h : (download_asset net fso url website st).1 = true) :
    p ∈ (download_asset net fso url website st).2.1.downloaded := by
  unfold download_asset at h ⊢
  by_cases hm : p ∈ st.downloaded
  · simp [hn, hm] at h
  · cases hnet : net (full_url url website) with
    | none => simp [hn, hm, hnet] at h
    | some r =>
      cases hb : r.body with
      | none => simp [hn, hm, hnet, hb] at h
      | some bytes =>
        by_cases hf : (fso.mkdirOK p && fso.writeOK p) = true
        · simp [hn, hm, hnet, hb, hf]
        · simp [hn, hm, hnet, hb, hf] at h

theorem download_asset_fetches (net : Net) (fso : FsOracle) {url website p : Str}
    {st : SessionState} (hn : normalize_url_path url website = some p)
    (hm : p ∉ st.downloaded) :
    Event.fetch (full_url url website) ∈ (download_asset net fso url website st).2.2 := by
  unfold download_asset
  cases hnet : net (full_url url website) with
  | none => simp [hn, hm, hnet]
  | some r =>
    cases hb : r.body with
    | none => simp [hn, hm, hnet, hb]
    | some bytes =>
      by_cases hf : (fso.mkdirOK p && fso.writeOK p) = true
      · simp [hn, hm, hnet, hb, hf]
      · simp [hn, hm, hnet, hb, hf]

theorem download_asset_success (net : Net) (fso : FsOracle) {url website p : Str}
    {st : SessionState} {r : Response} {bytes : List Nat}
    (hn : normalize_url_path url website = some p) (hm : p ∉ st.downloaded)
    (hnet : net (full_url url website) = some r) (hb : r.body = some bytes)
    (hmk : fso.mkdirOK p = true) (hw : fso.writeOK p = true) :
    (download_asset net fso url website st).1 = true := by
  unfold download_asset
  rw [hn]
  simp [hm, hnet, hb, hmk, hw]

/-- C1 counterexample: after a failed download the path is NOT claimed in
the registry and the path IS retried.  With the network refusing the
connection, `download_asset` on `/logo.png` returns false and leaves the
registry empty (the claim says the path remains claimed); a later call in
the same session for the same path performs the fetch again and succeeds
(the claim says it returns "not downloaded" without re-attempting). -/
theorem c1_cex_claim_released_and_retried :
    (download_asset netRefuse fsoAll (str "/logo.png") (str "https://www.ivoclar.com")
        initialSession).1 = false ∧
    (download_asset netRefuse fsoAll (str "/logo.png") (str "https://www.ivoclar.com")
        initialSession).2.1.downloaded = [] ∧
    Event.fetch (full_url (str "/logo.png") (str "https://www.ivoclar.com")) ∈
      (download_asset netOk fsoAll (str "/logo.png") (str "https://www.ivoclar.com")
        (download_asset netRefuse fsoAll (str "/logo.png") (str "https://www.ivoclar.com")
          initialSession).2.1).2.2 ∧
    (download_asset netOk fsoAll (str "/logo.png") (str "https://www.ivoclar.com")
        (download_asset netRefuse fsoAll (str "/logo.png") (str "https://www.ivoclar.com")
          initialSession).2.1).1 = true := by
  decide

/-- C1 (amended): when a `download_asset` call for a fresh path fails, the
session state is unchanged — in particular the path is NOT in the registry —
and any subsequent call in the session whose URL normalizes to the same path
re-attempts the network fetch, succeeding if fetch and write then succeed. -/
theorem c1_amended_failure_not_claimed (net : Net) (fso : FsOracle) (url website : Str)
    (st : SessionState) (p : Str)
    (hn : normalize_url_path url website = some p)
    (hm : p ∉ st.downloaded)
    (hfail : (download_asset net fso url website st).1 = false) :
    (download_asset net fso url website st).2.1 = st ∧
    p ∉ (download_asset net fso url website st).2.1.downloaded ∧
    (∀ (net' : Net) (fso' : FsOracle),
      Event.fetch (full_url url website) ∈
        (download_asset net' fso' url website
          (download_asset net fso url website st).2.1).2.2) ∧
    (∀ (net' : Net) (fso' : FsOracle) (r : Response) (bytes : List Nat),
      net' (full_url url website) = some r → r.body = some bytes →
      fso'.mkdirOK p = true → fso'.writeOK p = true →
      (download_asset net' fso' url website
        (download_asset net fso url website st).2.1).1 = true) := by
  have hstate := download_asset_false_state net fso hfail
  refine ⟨hstate, ?_, ?_, ?_⟩
  · rw [hstate]; exact hm
  · intro net' fso'
    rw [hstate]
    exact download_asset_fetches net' fso' hn hm
  · intro net' fso' r bytes h1 h2 h3 h4
    rw [hstate]
    exact download_asset_success net' fso' hn hm h1 h2 h3 h4

theorem c1_witness :
    (download_asset netRefuse fsoAll (str "/i.svg") (str "https://www.ivoclar.com")
      initialSession).2.1 = initialSession :=
  (c1_amended_failure_not_claimed netRefuse fsoAll (str "/i.svg")
    (str "https://www.ivoclar.com") initialSession (str "i.svg")
    (by decide) (by decide) (by decide)).1

/-- C2 counterexample: a non-success HTTP status is not a failure for
`download_asset`.  The network oracle answers every request with status 404
(reqwest's `send()` succeeds on HTTP error statuses); the body is read and
written, and the call reports the asset as newly downloaded (`true`), where
the claim requires `false`. -/
theorem c2_cex_non_success_status_downloaded :
    netRespond404 (full_url (str "/style.css") (str "https://www.ivoclar.com")) =
      some ⟨404, some [60, 104, 62]⟩ ∧
    isSuccessStatus 404 = false ∧
    (download_asset netRespond404 fsoAll (str "/style.css") (str "https://www.ivoclar.com")
        initialSession).1 = true := by
  decide

/-- C2 (amended): `download_asset` returns false whenever the connection
fails or reading the response body fails; the HTTP status is never
inspected, so a non-success response whose body reads successfully is
written and reported as downloaded. -/
theorem c2_amended_conn_or_body_failure (net : Net) (fso : FsOracle) (url website : Str)
    (st : SessionState) :
    (net (full_url url website) = none → (download_asset net fso url website st).1 = false) ∧
    (∀ r, net (full_url url website) = some r → r.body = none →
      (download_asset net fso url website st).1 = false) := by
  constructor
  · intro hnet
    unfold download_asset
    cases hn : normalize_url_path url website with
    | none => rfl
    | some p =>
      by_cases hm : p ∈ st.downloaded
      · simp [hm]
      · simp [hm, hnet]
  · intro r hnet hb
    unfold download_asset
    cases hn : normalize_url_path url website with
    | none => rfl
    | some p =>
      by_cases hm : p ∈ st.downloaded
      · simp [hm]
      · simp [hm, hnet, hb]

theorem c2_witness :
    (download_asset netRefuse fsoAll (str "/a.js") (str "https://www.ivoclar.com")
      initialSession).1 = false ∧
    (download_asset netBodyFail fsoAll (str "/a.js") (str "https://www.ivoclar.com")
      initialSession).1 = false :=
  ⟨(c2_amended_conn_or_body_failure netRefuse fsoAll (str "/a.js")
      (str "https://www.ivoclar.com") initialSession).1 rfl,
   (c2_amended_conn_or_body_failure netBodyFail fsoAll (str "/a.js")
      (str "https://www.ivoclar.com") initialSession).2 ⟨200, none⟩ rfl rfl⟩

/-- Characterization of a successful `download_asset` call: the state gains
exactly the claimed path and the written file. -/
theorem download_asset_true_state (net : Net) (fso : FsOracle) {url website p : Str}
    {st : SessionState} (hn : normalize_url_path url website = some p)
    (h : (download_asset net fso url website st).1 = true) :
    ∃ bytes, (download_asset net fso url website st).2.1 =
      ⟨p :: st.downloaded, (p, bytes) :: st.files⟩ := by
  unfold download_asset at h ⊢
  by_cases hm : p ∈ st.downloaded
  · simp [hn, hm] at h
  · cases hnet : net (full_url url website) with
    | none => simp [hn, hm, hnet] at h
    | some r =>
      cases hb : r.body with
      | none => simp [hn, hm, hnet, hb] at h
      | some bytes =>
        by_cases hf : (fso.mkdirOK p && fso.writeOK p) = true
        · exact ⟨bytes, by simp [hn, hm, hnet, hb, hf]⟩
        · simp [hn, hm, hnet, hb, hf] at h

theorem download_asset_none_false (net : Net) (fso : FsOracle) {url website : Str}
    (st : SessionState) (hn : normalize_url_path url website = none) :
    download_asset net fso url website st = (false, st, []) := by
  unfold download_asset
  rw [hn]

/-- C3: the registry invariant — a path is in the dedup registry iff asset
bytes were successfully written at it this session — holds at session start
and is preserved by every `download_asset` call. -/
theorem c3_registry_writes_invariant :
    RegistryInv initialSession ∧
    ∀ (net : Net) (fso : FsOracle) (url website : Str) (st : SessionState),
      RegistryInv st → RegistryInv (download_asset net fso url website st).2.1 := by
  constructor
  · intro p
    simp [initialSession]
  · intro net fso url website st hInv
    by_cases hres : (download_asset net fso url website st).1 = true
    · cases hn : normalize_url_path url website with
      | none =>
        rw [download_asset_none_false net fso st hn] at hres
        simp at hres
      | some p =>
        obtain ⟨bytes, hstate⟩ := download_asset_true_state net fso hn hres
        rw [hstate]
        intro q
        simp [List.mem_cons, hInv q]
    · have hres' : (download_asset net fso url website st).1 = false := by
        simpa using hres
      rw [download_asset_false_state net fso hres']
      exact hInv

theorem c3_witness :
    RegistryInv (download_asset netRespond404 fsoAll (str "/w.png")
      (str "https://www.ivoclar.com") initialSession).2.1 :=
  c3_registry_writes_invariant.2 netRespond404 fsoAll (str "/w.png")
    (str "https://www.ivoclar.com") initialSession
    (fun p => by simp [initialSession])

/-- C4: once a call has downloaded the asset at a canonical path, a second
call in the same session whose URL normalizes to the same path returns
false, performs no fetch and no write (its effect trace is empty) and
leaves the session state — registry and files — unchanged. -/
theorem c4_second_call_noop (net net' : Net) (fso fso' : FsOracle) (u1 u2 website : Str)
    (st : SessionState) (p : Str)
    (h1 : normalize_url_path u1 website = some p)
    (h2 : normalize_url_path u2 website = some p)
    (hfirst : (download_asset net fso u1 website st).1 = true) :
    (download_asset net' fso' u2 website
        (download_asset net fso u1 website st).2.1).1 = false ∧
    (download_asset net' fso' u2 website
        (download_asset net fso u1 website st).2.1).2.1 =
      (download_asset net fso u1 website st).2.1 ∧
    (download_asset net' fso' u2 website
        (download_asset net fso u1 website st).2.1).2.2 = [] := by
  have hmem := download_asset_true_downloaded net fso h1 hfirst
  rw [download_asset_mem net' fso' h2 hmem]
  exact ⟨rfl, rfl, rfl⟩

theorem c4_witness :
    (download_asset netRefuse fsoAll (str "https://www.ivoclar.com/a.css")
      (str "https://www.ivoclar.com")
      (download_asset netOk fsoAll (str "/a.css") (str "https://www.ivoclar.com")
        initialSession).2.1).1 = false :=
  (c4_second_call_noop netOk netRefuse fsoAll fsoAll (str "/a.css")
    (str "https://www.ivoclar.com/a.css") (str "https://www.ivoclar.com") initialSession
    (str "a.css") (by decide) (by decide) (by decide)).1

/-- C5 counterexample: the membership check and the insertion are two
separate critical sections, so two concurrent calls for the same path can
both report "downloaded".  Under the interleaving (check 1, check 2,
fetch+write 1, insert 1, fetch+write 2, insert 2) both threads finish with
result true and the registry receives the path twice. -/
theorem c5_cex_interleaving_two_winners :
    run2 (str "a.css") [true, false, true, true, false, false] (.start, .start, []) =
      (.finished true, .finished true, [str "a.css", str "a.css"]) := by
  decide

theorem run2_stall (p : Str) (n : Nat) (t1 : TState) (b : Bool) (reg : List Str) :
    run2 p (List.replicate n false) (t1, .finished b, reg) = (t1, .finished b, reg) := by
  induction n with
  | zero => rfl
  | succ k ih => simp [List.replicate_succ, run2, stepT, ih]

/-- C5 (amended): when the two claim attempts for the same path are
serialized — the first call runs to completion before the second takes a
step — exactly one reports "downloaded": the first finishes true and the
second finds the path present at its membership check and finishes false. -/
theorem c5_amended_sequential_single_winner (p : Str) (n : Nat) :
    run2 p (true :: true :: true :: List.replicate (n + 1) false) (.start, .start, []) =
      (.finished true, .finished false, [p]) := by
  have h1 : run2 p (true :: true :: true :: List.replicate (n + 1) false)
      (.start, .start, []) =
      run2 p (List.replicate (n + 1) false) (.finished true, .start, [p]) := by
    simp [run2, stepT]
  have h2 : run2 p (false :: List.replicate n false) (.finished true, .start, [p]) =
      run2 p (List.replicate n false) (.finished true, .finished false, [p]) := by
    simp [run2, stepT]
  rw [h1, List.replicate_succ, h2, run2_stall]
